import Mathlib

/-!
Shallow embedding of the extraction pipeline of
`src/project/src/lib/gemini.ts` and the save logic of
`src/project/src/components/PDFScanner.tsx`.

External collaborators (the Gemini network call `model.generateContent` /
`response.text()`, the platform `JSON.parse`, and the Supabase insert) are
modelled as abstract parameters: a call oracle `Nat → String → Except CallError α`
(attempt index and acquired credential to outcome of the whole try-body),
and a parse oracle `String → Option (List ExtractedQuestion)` (`none` models a
thrown `SyntaxError`).  Everything else is translated directly from the source.
-/

/-- Error thrown by one attempt of a model call; `message` models
`error.message` (an absent message is modelled by `""`, on which
`includes` is false, matching the `error.message?.includes(...)` optional
chaining in the source). -/
structure CallError where
  message : String
deriving DecidableEq

/-- Outcome of a whole retry loop: either some caught-and-rethrown call error
(`thrown`), or one of the loop's own `new Error(...)` failures (`exhausted`). -/
inductive RunError where
  | thrown (e : CallError)
  | exhausted (message : String)
deriving DecidableEq

/-- Result of running one of the retry loops: the value or error produced,
the number of attempts (iterations that issued a call), and the key-usage
counters after the run. -/
structure RunOutcome (α : Type) where
  result : Except RunError α
  attempts : Nat
  usage : String → Nat

instance {ε α : Type} [DecidableEq ε] [DecidableEq α] : DecidableEq (Except ε α) := fun a b =>
  match a, b with
  | .ok x, .ok y =>
    if h : x = y then isTrue (by rw [h]) else isFalse (fun he => by cases he; exact h rfl)
  | .error x, .error y =>
    if h : x = y then isTrue (by rw [h]) else isFalse (fun he => by cases he; exact h rfl)
  | .ok _, .error _ => isFalse (fun h => Except.noConfusion h)
  | .error _, .ok _ => isFalse (fun h => Except.noConfusion h)

/-- Containment of `pat` as a contiguous substring, modelling JS
`String.prototype.includes`. -/
def containsSub (pat : List Char) : List Char → Bool
  | [] => pat.isEmpty
  | c :: rest => pat.isPrefixOf (c :: rest) || containsSub pat rest

/-- Embedding of `error.message?.includes('429') || error.message?.includes('quota')`
from the catch blocks in gemini.ts (lines 311, 474, 624). -/
def isRateLimitError (e : CallError) : Bool :=
  containsSub "429".toList e.message.toList || containsSub "quota".toList e.message.toList

/-- Embedding of the selection loop of `getNextApiKey` (gemini.ts lines 23-34):
start with `API_KEYS[0]` as best and scan the whole list, replacing the best
key whenever a strictly smaller usage count is found.  The `minUsage` local of
the source always equals `usage bestKey`, so only the best key is tracked.
`keyUsageCount.get(key) || 0` is modelled by a total function `usage`. -/
def selectKey (keys : List String) (usage : String → Nat) : String :=
  keys.foldl (fun best k => if usage k < usage best then k else best) (keys.headD "")

/-- Embedding of `getNextApiKey` (gemini.ts lines 23-40): select the
least-used key and increment its counter (`keyUsageCount.set(bestKey, ... + 1)`). -/
def getNextApiKey (keys : List String) (usage : String → Nat) :
    String × (String → Nat) :=
  let bestKey := selectKey keys usage
  (bestKey, fun k => if k = bestKey then usage bestKey + 1 else usage k)

/-- Usage counters after `n` consecutive `getNextApiKey` calls starting from
the all-zero state (the module-initialization state of `keyUsageCount`). -/
def usageAfter (keys : List String) : Nat → (String → Nat)
  | 0 => fun _ => 0
  | n + 1 => (getNextApiKey keys (usageAfter keys n)).2

/-- Embedding of the retry loop shared by `analyzePageStructure`
(gemini.ts lines 256-323) and `extractQuestionsWithContext` (lines 333-486).
`remaining` is the fuel `maxRetries - retryCount`, so the `while (retryCount
< maxRetries)` guard is `remaining > 0` and the `retryCount < maxRetries`
test after the increment in the catch block is `remaining ≥ 1`; `retryCount`
still indexes the call oracle.  On a rate-limit error with retries left the
source sleeps 2s and continues (time is not modelled); any other caught
error, and a rate-limit error on the last attempt, is rethrown (`throw
error`).  The `exhaustedMsg` throw after the loop is reachable only when the
loop body never runs. -/
def analyzeLoop {α : Type} (keys : List String) (call : Nat → String → Except CallError α)
    (exhaustedMsg : String) : Nat → Nat → (String → Nat) → RunOutcome α
  | 0, _, usage => { result := .error (.exhausted exhaustedMsg), attempts := 0, usage := usage }
  | remaining + 1, retryCount, usage =>
    let acquired := getNextApiKey keys usage
    match call retryCount acquired.1 with
    | .ok v => { result := .ok v, attempts := 1, usage := acquired.2 }
    | .error e =>
      if isRateLimitError e ∧ 1 ≤ remaining then
        let r := analyzeLoop keys call exhaustedMsg remaining (retryCount + 1) acquired.2
        { r with attempts := r.attempts + 1 }
      else
        { result := .error (.thrown e), attempts := 1, usage := acquired.2 }

/-- Embedding of the retry loop of `performExtraction` (gemini.ts lines
494-638), same fuel convention as `analyzeLoop`.  Its catch block differs: a
rate-limit error with retries left sleeps and continues; otherwise, if
`retryCount >= maxRetries` it throws the `All ... API keys exhausted ...`
error; otherwise (any non-rate-limit error with retries left) the catch block
ends and the while loop runs again, i.e. the error is retried. -/
def performLoop {α : Type} (keys : List String) (call : Nat → String → Except CallError α)
    (pageNumber : Nat) (maxRetries : Nat) : Nat → Nat → (String → Nat) → RunOutcome α
  | 0, _, usage =>
    { result := .error (.exhausted ("Failed to process page " ++ toString pageNumber ++
        " after trying all API keys")), attempts := 0, usage := usage }
  | remaining + 1, retryCount, usage =>
    let acquired := getNextApiKey keys usage
    match call retryCount acquired.1 with
    | .ok v => { result := .ok v, attempts := 1, usage := acquired.2 }
    | .error e =>
      if isRateLimitError e ∧ 1 ≤ remaining then
        let r := performLoop keys call pageNumber maxRetries remaining (retryCount + 1) acquired.2
        { r with attempts := r.attempts + 1 }
      else if remaining = 0 then
        { result := .error (.exhausted ("All " ++ toString maxRetries ++
            " API keys exhausted for page " ++ toString pageNumber ++ ": " ++ e.message)),
          attempts := 1, usage := acquired.2 }
      else
        let r := performLoop keys call pageNumber maxRetries remaining (retryCount + 1) acquired.2
        { r with attempts := r.attempts + 1 }

/-- The retry machinery of `analyzePageStructure`: `maxRetries = API_KEYS.length`,
`retryCount = 0`. -/
def analyzePageStructureRun {α : Type} (keys : List String)
    (call : Nat → String → Except CallError α) (usage : String → Nat) : RunOutcome α :=
  analyzeLoop keys call "All API keys exhausted for page structure analysis"
    keys.length 0 usage

/-- The retry machinery of `extractQuestionsWithContext`: same loop, different
final message. -/
def extractQuestionsWithContextRun {α : Type} (keys : List String)
    (call : Nat → String → Except CallError α) (usage : String → Nat) : RunOutcome α :=
  analyzeLoop keys call "All API keys exhausted for question extraction"
    keys.length 0 usage

/-- The retry machinery of `performExtraction`: `maxRetries = API_KEYS.length`,
`retryCount = 0`. -/
def performExtractionRun {α : Type} (keys : List String)
    (call : Nat → String → Except CallError α) (pageNumber : Nat)
    (usage : String → Nat) : RunOutcome α :=
  performLoop keys call pageNumber keys.length keys.length 0 usage

/-- Embedding of the `ExtractedQuestion` interface (gemini.ts lines 42-55).
Optional fields are `Option`; `page_number` is optional here because the
records decoded from model JSON need not carry it (the TS cast is unchecked) —
the pipeline always stamps it.  `confidence_score` uses `Rat` for JS numbers
(`NaN` is not modelled). -/
structure ExtractedQuestion where
  question_number : Option String := none
  question_type : String := ""
  question_statement : String := ""
  options : Option (List String) := none
  is_continuation : Option Bool := none
  page_number : Option Int := none
  confidence_score : Option Rat := none
  spans_multiple_pages : Option Bool := none
  continuation_from_page : Option Int := none
  has_image : Option Bool := none
  image_description : Option String := none
  uploaded_image : Option String := none
deriving DecidableEq

/-- JS `x || d` on an optional number `x`: `undefined` and `0` are falsy and
yield the default (`NaN`, also falsy, is not modelled). -/
def jsNumOr (x : Option Rat) (d : Rat) : Rat :=
  match x with
  | some v => if v = 0 then d else v
  | none => d

/-- Embedding of the per-record stamping `{ ...q, page_number: pageNumber,
confidence_score: q.confidence_score || 1.0 }` (gemini.ts lines 440-444 and
610-614). -/
def stampQuestion (page : Nat) (q : ExtractedQuestion) : ExtractedQuestion :=
  { q with page_number := some (page : Int),
           confidence_score := some (jsNumOr q.confidence_score 1) }

/-- The `questions.map(q => ({ ...q, page_number, confidence_score }))` step. -/
def stampQuestions (page : Nat) (qs : List ExtractedQuestion) : List ExtractedQuestion :=
  qs.map (stampQuestion page)

/-- Embedding of the greedy regex `text.match(/\[[\s\S]*\]/)` on a character
list.  The regex matches starting at the first `[` that has some `]` after
it (and if the first `[` of the text has none, no later one does either),
and the greedy `[\s\S]*` extends the match to the last `]` of the text.  So
the match exists iff some `[` precedes some `]`, and it spans from the first
`[` to the last `]`. -/
def bracketSpanL (s : List Char) : Option (List Char) :=
  match s.dropWhile (fun c => c != '[') with
  | [] => none
  | _ :: rest =>
    let r := rest.reverse.dropWhile (fun c => c != ']')
    if r.isEmpty then none else some ('[' :: r.reverse)

/-- String version of `bracketSpanL`. -/
def bracketSpan (s : String) : Option String :=
  (bracketSpanL s.toList).map List.asString

/-- Remainder of `s` after the first occurrence of `pat`; `none` when `pat`
does not occur. -/
def dropAfterFirst (pat : List Char) : List Char → Option (List Char)
  | [] => if pat.isEmpty then some [] else none
  | c :: rest =>
    if pat.isPrefixOf (c :: rest) then some ((c :: rest).drop pat.length)
    else dropAfterFirst pat rest

/-- Part of `s` before the first occurrence of `pat`; `none` when `pat` does
not occur. -/
def takeBeforeFirst (pat : List Char) : List Char → Option (List Char)
  | [] => if pat.isEmpty then some [] else none
  | c :: rest =>
    if pat.isPrefixOf (c :: rest) then some []
    else (takeBeforeFirst pat rest).map (fun l => c :: l)

/-- JS regex `\s` on the ASCII whitespace characters (the Unicode space
classes are not modelled). -/
def isJsSpace (c : Char) : Bool :=
  c == ' ' || c == '\t' || c == '\n' || c == '\r' || c == '\x0b' || c == '\x0c'

/-- Embedding of `text.match(/```json\s*([\s\S]*?)\s*```/)`, capture group 1:
after the first occurrence of the literal ```` ```json ````, the greedy
leading `\s*` drops the whitespace run, and the lazy group ends at the
earliest viable closing fence, i.e. the captured text runs up to the first
following ```` ``` ```` with the whitespace run before that fence stripped
(whitespace runs cannot cross a fence, so the earliest fence always wins).
`none` when there is no labeled fence with a closing fence. -/
def fenceInteriorL (s : List Char) : Option (List Char) :=
  match dropAfterFirst ("```json".toList) s with
  | none => none
  | some rest =>
    let rest' := rest.dropWhile isJsSpace
    match takeBeforeFirst ("```".toList) rest' with
    | none => none
    | some content => some ((content.reverse.dropWhile isJsSpace).reverse)

/-- String version of `fenceInteriorL`. -/
def fenceInterior (s : String) : Option String :=
  (fenceInteriorL s.toList).map List.asString

/-- Embedding of the candidate-location logic shared by
`extractQuestionsWithContext` (gemini.ts lines 425-431) and
`performExtraction` (lines 595-601): try the bracketed-span regex first; only
when it fails, try the fenced ```` ```json ```` block and take its interior. -/
def extractJsonCandidate (text : String) : Option String :=
  match bracketSpan text with
  | some m => some m
  | none => fenceInterior text

/-- Pass one of the JSON repair (gemini.ts line 454):
`replace(/\\(?![\\"])/g, '\\\\')` — double every backslash that is not
followed by a backslash or a double quote (a lookahead at end of input
succeeds); after a match the scan resumes after the matched backslash, and an
unmatched backslash is simply skipped over. -/
def escapeLoneBackslashes : List Char → List Char
  | [] => []
  | '\\' :: rest =>
    match rest with
    | [] => ['\\', '\\']
    | c :: _ =>
      if c = '\\' ∨ c = '"' then '\\' :: escapeLoneBackslashes rest
      else '\\' :: '\\' :: escapeLoneBackslashes rest
  | c :: rest => c :: escapeLoneBackslashes rest

/-- Emit a pending run of `count` backslashes, collapsed to 4 when 4 or more. -/
def emitRun (count : Nat) : List Char :=
  List.replicate (if 4 ≤ count then 4 else count) '\\'

/-- Pass two of the JSON repair (gemini.ts line 455):
`replace(/\\\\\\\\+/g, '\\\\\\\\')` — the pattern is four literal
backslashes with `+` on the last, i.e. any maximal run of 4 or more
backslashes, replaced by exactly four backslashes.  `count` is the number of
backslashes read so far in the current run. -/
def collapseBackslashRuns (count : Nat) : List Char → List Char
  | [] => emitRun count
  | c :: rest =>
    if c = '\\' then collapseBackslashRuns (count + 1) rest
    else emitRun count ++ c :: collapseBackslashRuns 0 rest

/-- Global single-character replacement, modelling `replace(/X/g, ...)` for a
one-character pattern. -/
def replaceChar (target : Char) (repl : List Char) : List Char → List Char
  | [] => []
  | c :: rest => (if c = target then repl else [c]) ++ replaceChar target repl rest

/-- Embedding of the whole repair chain of `extractQuestionsWithContext`
(gemini.ts lines 450-458), in source order: escape lone backslashes, collapse
over-escaped runs, then escape literal newline, tab and carriage-return
characters. -/
def fixJsonL (s : List Char) : List Char :=
  replaceChar '\r' ['\\', 'r']
    (replaceChar '\t' ['\\', 't']
      (replaceChar '\n' ['\\', 'n']
        (collapseBackslashRuns 0 (escapeLoneBackslashes s))))

/-- String version of `fixJsonL`. -/
def fixJson (s : String) : String :=
  (fixJsonL s.toList).asString

/-- Embedding of the decode portion of `performExtraction` (gemini.ts lines
594-618): locate a candidate, parse it, stamp the records; a parse failure
(or no candidate) yields `[]` — there is no repair pass here.  `parse` is the
`JSON.parse` oracle (`none` = thrown `SyntaxError`); the surrounding
try/catch makes this a total function. -/
def performExtractionDecode (parse : String → Option (List ExtractedQuestion))
    (text : String) (page : Nat) : List ExtractedQuestion :=
  match extractJsonCandidate text with
  | none => []
  | some candidate =>
    match parse candidate with
    | some qs => stampQuestions page qs
    | none => []

/-- Embedding of the decode portion of `extractQuestionsWithContext`
(gemini.ts lines 424-470): like `performExtractionDecode`, but a parse
failure triggers one repair pass (`fixJson`) followed by a re-parse, and only
a second failure yields `[]`. -/
def extractWithContextDecode (parse : String → Option (List ExtractedQuestion))
    (text : String) (page : Nat) : List ExtractedQuestion :=
  match extractJsonCandidate text with
  | none => []
  | some candidate =>
    match parse candidate with
    | some qs => stampQuestions page qs
    | none =>
      match parse (fixJson candidate) with
      | some qs => stampQuestions page qs
      | none => []

/-- Embedding of the structural-pass result of `analyzePageStructure`
(gemini.ts lines 251-255). -/
structure PageAnalysis where
  sharedDescription : Option String := none
  hasMultiPageQuestion : Option Bool := none
  questionNumbers : Option (List String) := none

/-- Embedding of the first pass of `enhancedQuestionExtraction` (gemini.ts
lines 193-213): for each page, run the structural analysis; on success store
a truthy (non-empty) shared description under the page number
(`if (pageAnalysis.sharedDescription) sharedDescriptions.set(...)`); a caught
error skips the page and the loop continues.  `analyze` is the oracle for
`analyzePageStructure` on each page; the 5s pacing delay is not modelled. -/
def firstPassLoop (analyze : Nat → Except CallError PageAnalysis) :
    List Nat → (Nat → Option String) → (Nat → Option String)
  | [], sharedDescriptions => sharedDescriptions
  | pageNum :: ps, sharedDescriptions =>
    match analyze pageNum with
    | .ok a =>
      match a.sharedDescription with
      | some d =>
        if d = "" then firstPassLoop analyze ps sharedDescriptions
        else firstPassLoop analyze ps
          (fun x => if x = pageNum then some d else sharedDescriptions x)
      | none => firstPassLoop analyze ps sharedDescriptions
    | .error _ => firstPassLoop analyze ps sharedDescriptions

/-- Embedding of the second pass of `enhancedQuestionExtraction` (gemini.ts
lines 216-241): for each page, run the contextual extraction with the
accumulated `allQuestions` as context; on success append the page's
questions; a caught error contributes nothing (`continue`).  The 10s pacing
delay is not modelled. -/
def secondPassLoop
    (extract : Nat → List ExtractedQuestion → Except CallError (List ExtractedQuestion)) :
    List Nat → List ExtractedQuestion → List ExtractedQuestion
  | [], allQuestions => allQuestions
  | pageNum :: ps, allQuestions =>
    match extract pageNum allQuestions with
    | .ok qs => secondPassLoop extract ps (allQuestions ++ qs)
    | .error _ => secondPassLoop extract ps allQuestions

/-- Embedding of `enhancedQuestionExtraction` (gemini.ts lines 184-244):
first pass builds the shared-description map from an empty map, second pass
extracts with that map, starting from an empty accumulator.  `extract` is
the oracle for `extractQuestionsWithContext`, taking the shared-description
map, the page number, and the questions accumulated so far. -/
def enhancedQuestionExtraction (analyze : Nat → Except CallError PageAnalysis)
    (extract : (Nat → Option String) → Nat →
      List ExtractedQuestion → Except CallError (List ExtractedQuestion))
    (pages : List Nat) : List ExtractedQuestion :=
  let sharedDescriptions := firstPassLoop analyze pages (fun _ => none)
  secondPassLoop (extract sharedDescriptions) pages []

/-- Per-page results of a run, spec-side formulation: each page contributes
its successfully extracted questions, a failed page contributes nothing, in
page order. -/
def pageResults (f : Nat → Except CallError (List ExtractedQuestion)) :
    List Nat → List ExtractedQuestion
  | [] => []
  | p :: ps =>
    (match f p with
     | .ok qs => qs
     | .error _ => []) ++ pageResults f ps

/-- Embedding of `questions.map(q => q.question_statement).join(' ')`
(PDFScanner.tsx line 177). -/
def joinStatements (qs : List ExtractedQuestion) : String :=
  String.intercalate " " (qs.map (fun q => q.question_statement))

/-- Embedding of the per-page loop of `scanAndExtractQuestions`
(PDFScanner.tsx lines 166-193): for each page, call `performExtraction` with
the rolling `previousContext`; a non-empty result is appended and replaces
the context; a caught page error contributes nothing and the loop continues.
`extract` is the oracle for `performExtraction` on (page, previousContext);
the `pageMemory` threading and the 10s delay are folded into the oracle /
not modelled. -/
def scanPagesLoop (extract : Nat → String → Except CallError (List ExtractedQuestion)) :
    List Nat → String → List ExtractedQuestion
  | [], _ => []
  | pageNum :: ps, previousContext =>
    match extract pageNum previousContext with
    | .ok questions =>
      if questions.length > 0 then
        questions ++ scanPagesLoop extract ps (joinStatements questions)
      else
        scanPagesLoop extract ps previousContext
    | .error _ => scanPagesLoop extract ps previousContext

/-- Decimal digit character for a digit value below 10 (the code point of
`'0'` is 48). -/
def decDigitChar (n : Nat) : Char :=
  Char.ofNat (48 + n % 10)

/-- Digit value of a decimal digit character, `none` for non-digits. -/
def charDigitVal (c : Char) : Option Nat :=
  if '0' ≤ c ∧ c ≤ '9' then some (c.toNat - 48) else none

/-- Decimal digit test. -/
def isDecDigit (c : Char) : Bool :=
  (charDigitVal c).isSome

/-- Fuel-indexed most-significant-first decimal rendering of a natural
number; `fuel > n` always suffices. -/
def natDecimalCharsAux : Nat → Nat → List Char
  | 0, _ => []
  | fuel + 1, n =>
    if n < 10 then [decDigitChar n]
    else natDecimalCharsAux fuel (n / 10) ++ [decDigitChar (n % 10)]

/-- Model of the decimal rendering `n.toString()` of a nonnegative JS
integer. -/
def natDecimalChars (n : Nat) : List Char :=
  natDecimalCharsAux (n + 1) n

/-- Model of `i.toString()` for an integral JS number: optional minus sign
followed by the decimal digits of the absolute value. -/
def intDecimalChars (i : Int) : List Char :=
  if i < 0 then '-' :: natDecimalChars i.natAbs else natDecimalChars i.toNat

/-- Leading decimal-digit run of `s` as a number, `none` when `s` does not
start with a digit. -/
def parseLeadingNat (s : List Char) : Option Nat :=
  let ds := s.takeWhile isDecDigit
  if ds.isEmpty then none
  else some (ds.foldl (fun a c => a * 10 + (charDigitVal c).getD 0) 0)

/-- Model of JS `parseInt(s)` (radix 10): skip leading whitespace, read an
optional sign and then a leading digit run; `none` models `NaN` (the hex
`0x` prefix is not modelled — no caller passes one). -/
def jsParseIntL (s : List Char) : Option Int :=
  let s1 := s.dropWhile isJsSpace
  match s1 with
  | '-' :: rest => (parseLeadingNat rest).map (fun n => -(n : Int))
  | '+' :: rest => (parseLeadingNat rest).map (fun n => (n : Int))
  | _ => (parseLeadingNat s1).map (fun n => (n : Int))

/-- String version of `jsParseIntL`. -/
def jsParseInt (s : String) : Option Int :=
  jsParseIntL s.toList

/-- Model of JS `String.prototype.trim`: drop leading and trailing
whitespace. -/
def jsTrim (s : String) : String :=
  (((s.toList.dropWhile isJsSpace).reverse.dropWhile isJsSpace).reverse).asString

/-- Embedding of the row built by `savePdfQuestions` for the `questions`
table (PDFScanner.tsx lines 245-252). `year` is `Option Int`: `none` models
`parseInt` producing `NaN`. -/
structure QuestionInsert where
  question_type : String
  question_statement : String
  options : Option (List String)
  course_id : String
  year : Option Int
  categorized : Bool
deriving DecidableEq

/-- Embedding of the `questions.map(q => ({...}))` step of `savePdfQuestions`
(PDFScanner.tsx lines 245-252): `options` is kept only when present and
non-empty (`q.options && q.options.length > 0 ? q.options : null`). -/
def toInsert (courseId : String) (year : String) (q : ExtractedQuestion) : QuestionInsert :=
  { question_type := q.question_type
    question_statement := q.question_statement
    options :=
      match q.options with
      | some os => if os.length > 0 then some os else none
      | none => none
    course_id := courseId
    year := jsParseInt year
    categorized := false }

/-- Embedding of the validity filter of `savePdfQuestions` (PDFScanner.tsx
lines 254-261): truthy non-empty statement with non-empty trim, truthy
recognized type tag, truthy course id, and a truthy year strictly between
2000 and 2030 (`q.year && q.year > 2000 && q.year < 2030`; `NaN` and `0` are
falsy, modelled by the `Option` match and the `y != 0` test). -/
def isValidInsert (q : QuestionInsert) : Bool :=
  (q.question_statement != "") &&
  (decide (0 < (jsTrim q.question_statement).length)) &&
  (q.question_type != "") &&
  (["MCQ", "MSQ", "NAT", "Subjective"].contains q.question_type) &&
  (q.course_id != "") &&
  (match q.year with
   | none => false
   | some y => (y != 0) && (decide (2000 < y)) && (decide (y < 2030)))

/-- Embedding of `savePdfQuestions` (PDFScanner.tsx lines 244-277): build the
rows, filter the valid ones, throw `No valid questions to save` when none
survive, otherwise submit the batch (the submitted rows are returned; the
storage collaborator itself is out of scope). -/
def savePdfQuestions (courseId : String) (questions : List ExtractedQuestion)
    (year : String) : Except String (List QuestionInsert) :=
  let questionsToInsert := questions.map (toInsert courseId year)
  let validQuestions := questionsToInsert.filter isValidInsert
  if validQuestions.isEmpty then .error "No valid questions to save"
  else .ok validQuestions

/-- Embedding of `q.page_number?.toString() || 'unknown'` (PDFScanner.tsx
line 293), the grouping key of `saveAllToDatabase`. -/
def yearKey (q : ExtractedQuestion) : String :=
  match q.page_number with
  | some p => (intDecimalChars p).asString
  | none => "unknown"

/-- First-occurrence-ordered distinct keys, modelling the iteration order of
the JS `Map` built per key in `saveAllToDatabase`; `seen` holds the keys
already emitted. -/
def uniqueKeysAux (seen : List String) : List String → List String
  | [] => []
  | k :: rest =>
    if seen.contains k then uniqueKeysAux seen rest
    else k :: uniqueKeysAux (k :: seen) rest

/-- Distinct keys of a list in first-occurrence order. -/
def uniqueKeys (l : List String) : List String :=
  uniqueKeysAux [] l

/-- Embedding of the save loop of `saveAllToDatabase` (PDFScanner.tsx lines
300-304): save each year group in Map order, concatenating the saved rows;
the first thrown error aborts the loop (it is caught by the surrounding
try/catch, modelled by the `Except` result). -/
def saveGroupsLoop (courseId : String) (qs : List ExtractedQuestion) :
    List String → Except String (List QuestionInsert)
  | [] => .ok []
  | k :: ks =>
    match savePdfQuestions courseId (qs.filter (fun q => yearKey q == k)) k with
    | .error e => .error e
    | .ok inserts =>
      match saveGroupsLoop courseId qs ks with
      | .error e => .error e
      | .ok rest => .ok (inserts ++ rest)

/-- Embedding of `saveAllToDatabase` (PDFScanner.tsx lines 279-320): guard on
a selected course and a non-empty question list, group the extracted
questions by `page_number` rendered as a string (used as the *year* argument
of `savePdfQuestions`), and save the groups in first-occurrence order. -/
def saveAllToDatabase (courseId : String) (qs : List ExtractedQuestion) :
    Except String (List QuestionInsert) :=
  if courseId = "" ∨ qs = [] then
    .error "Please select course and extract questions first"
  else
    saveGroupsLoop courseId qs (uniqueKeys (qs.map yearKey))

/-- All-zero usage state, the module-initialization state of `keyUsageCount`. -/
def usageZero : String → Nat := fun _ => 0

/-- Concrete two-credential pool for concrete runs. -/
def keysTwo : List String := ["key1", "key2"]

/-- Call oracle whose first attempt fails with a non-rate-limit error and
whose second attempt succeeds. -/
def callBoomThenOk : Nat → String → Except CallError Nat :=
  fun i _ => if i = 0 then .error { message := "boom" } else .ok 42

/-- Call oracle that fails with a non-rate-limit error on every attempt. -/
def callBoomAlways : Nat → String → Except CallError Nat :=
  fun _ _ => .error { message := "boom" }

/-- Call oracle that fails with a rate-limit error on every attempt. -/
def callRateLimited : Nat → String → Except CallError Nat :=
  fun _ _ => .error { message := "429" }

/-- Record whose decoded confidence score is present and equal to 0. -/
def qZeroConf : ExtractedQuestion :=
  { question_type := "MCQ", question_statement := "stmt", confidence_score := some 0 }

/-- Record returned by the repair-parse oracle in the repair scenario. -/
def qRepairCE : ExtractedQuestion :=
  { question_type := "MCQ", question_statement := "ok" }

/-- Parse oracle that fails on the raw candidate `"[\n]"` but succeeds on its
repaired form (the literal newline escaped to a backslash-n). -/
def parseRepairCE : String → Option (List ExtractedQuestion) :=
  fun s => if s = "[\\n]" then some [qRepairCE] else none

/-- Question with a given page number, for orchestrator runs. -/
def mkPageQ (p : Nat) : ExtractedQuestion :=
  { question_type := "MCQ", question_statement := "stmt", page_number := some (p : Int) }

/-- Structural-pass oracle that fails on every page. -/
def analyzeFailAll : Nat → Except CallError PageAnalysis :=
  fun _ => .error { message := "x" }

/-- Extraction oracle (two-pass shape) that fails deterministically on page 2
and succeeds elsewhere, ignoring its map and accumulator arguments. -/
def extractFailOn2 : (Nat → Option String) → Nat →
    List ExtractedQuestion → Except CallError (List ExtractedQuestion) :=
  fun _ p _ => if p = 2 then .error { message := "fail" } else .ok [mkPageQ p]

/-- Extraction oracle (single-pass shape) that fails deterministically on
page 2 and succeeds elsewhere, ignoring its context argument. -/
def extractFailOn2Ctx : Nat → String → Except CallError (List ExtractedQuestion) :=
  fun p _ => if p = 2 then .error { message := "fail" } else .ok [mkPageQ p]

/-- Concrete extracted question on page 3, for the save-all scenario. -/
def qPage3 : ExtractedQuestion :=
  { question_type := "MCQ", question_statement := "What is 2+2?",
    page_number := some 3 }

/-- Concrete record with an empty statement, invalid for saving. -/
def qEmptyStatement : ExtractedQuestion :=
  { question_type := "MCQ", question_statement := "", page_number := some 1 }

/-- Constant non-rate-limit error family for concrete runs. -/
def mkErrBoom : Nat → CallError := fun _ => { message := "boom" }

/-- Constant rate-limit error family for concrete runs. -/
def mkErr429 : Nat → CallError := fun _ => { message := "429" }

/-- Concrete usage state where the second key is the least used. -/
def usageW : String → Nat := fun k => if k = "key1" then 5 else 3

/-- The fold inside `getNextApiKey`, with an explicit starting best key. -/
def selectFold (usage : String → Nat) (b : String) (l : List String) : String :=
  l.foldl (fun best k => if usage k < usage best then k else best) b

theorem selectFold_spec (usage : String → Nat) (l : List String) (b : String) :
    ∃ l1 l2, b :: l = l1 ++ selectFold usage b l :: l2 ∧
      (∀ y ∈ l1, usage (selectFold usage b l) < usage y) ∧
      (∀ y ∈ b :: l, usage (selectFold usage b l) ≤ usage y) := by
  induction l generalizing b with
  | nil =>
    exact ⟨[], [], rfl, by simp, by simp [selectFold]⟩
  | cons k t ih =>
    have hstep : selectFold usage b (k :: t)
        = selectFold usage (if usage k < usage b then k else b) t := rfl
    by_cases h : usage k < usage b
    · obtain ⟨l1, l2, he, hlt, hmin⟩ := ih k
      rw [hstep, if_pos h]
      rw [hstep, if_pos h] at *
      refine ⟨b :: l1, l2, ?_, ?_, ?_⟩
      · rw [List.cons_append]
        exact congrArg (b :: ·) he
      · intro y hy
        rcases List.mem_cons.mp hy with rfl | hy
        · exact lt_of_le_of_lt (hmin k (by simp)) h
        · exact hlt y hy
      · intro y hy
        rcases List.mem_cons.mp hy with rfl | hy
        · exact le_of_lt (lt_of_le_of_lt (hmin k (by simp)) h)
        · exact hmin y hy
    · obtain ⟨l1, l2, he, hlt, hmin⟩ := ih b
      rw [hstep, if_neg h]
      rw [hstep, if_neg h] at *
      have hba : usage b ≤ usage k := Nat.le_of_not_lt h
      cases l1 with
      | nil =>
        simp only [List.nil_append] at he
        have hb : b = selectFold usage b t := (List.cons.injEq _ _ _ _).mp he |>.1
        have ht : t = l2 := (List.cons.injEq _ _ _ _).mp he |>.2
        refine ⟨[], k :: t, ?_, by simp, ?_⟩
        · simpa using congrArg (· :: k :: t) hb
        · intro y hy
          rcases List.mem_cons.mp hy with rfl | hy
          · exact hmin y (by simp)
          · rcases List.mem_cons.mp hy with rfl | hy
            · exact le_trans (hb ▸ le_refl (usage b)) hba
            · exact hmin y (List.mem_cons_of_mem b hy)
      | cons a t1 =>
        have ha : b = a := ((List.cons.injEq _ _ _ _).mp he).1
        have ht : t = t1 ++ selectFold usage b t :: l2 := by
          have := ((List.cons.injEq _ _ _ _).mp he).2
          simpa using this
        have hrb : usage (selectFold usage b t) < usage b := by
          have := hlt a (by simp)
          rwa [← ha] at this
        refine ⟨b :: k :: t1, l2, ?_, ?_, ?_⟩
        · show b :: k :: t = b :: k :: t1 ++ selectFold usage b t :: l2
          simp only [List.cons_append]
          exact congrArg (fun x => b :: k :: x) ht
        · intro y hy
          rcases List.mem_cons.mp hy with rfl | hy
          · exact hrb
          · rcases List.mem_cons.mp hy with rfl | hy
            · exact lt_of_lt_of_le hrb hba
            · exact hlt y (List.mem_cons_of_mem a hy)
        · intro y hy
          rcases List.mem_cons.mp hy with rfl | hy
          · exact hmin y (by simp)
          · rcases List.mem_cons.mp hy with rfl | hy
            · exact le_trans (hmin b (by simp)) hba
            · exact hmin y (List.mem_cons_of_mem b hy)

theorem selectKey_spec (keys : List String) (usage : String → Nat) (hkeys : keys ≠ []) :
    ∃ l1 l2, keys = l1 ++ selectKey keys usage :: l2 ∧
      (∀ y ∈ l1, usage (selectKey keys usage) < usage y) ∧
      (∀ y ∈ keys, usage (selectKey keys usage) ≤ usage y) := by
  cases keys with
  | nil => exact absurd rfl hkeys
  | cons k t =>
    have hsel : selectKey (k :: t) usage = selectFold usage k t := by
      simp only [selectKey, selectFold, List.headD_cons, List.foldl_cons, if_neg (lt_irrefl _)]
    rw [hsel]
    exact selectFold_spec usage t k

theorem selectKey_mem (keys : List String) (usage : String → Nat) (hkeys : keys ≠ []) :
    selectKey keys usage ∈ keys := by
  obtain ⟨l1, l2, he, -, -⟩ := selectKey_spec keys usage hkeys
  have hm : selectKey keys usage ∈ l1 ++ selectKey keys usage :: l2 := by simp
  rwa [← he] at hm

/-- C6: `getNextApiKey` returns the credential with minimal recorded usage,
ties broken by the first credential in the configured order (every credential
strictly before the returned one is strictly more used), and its only side
effect is to increment exactly that credential's usage count by one. -/
theorem c6_acquire_least_used (keys : List String) (usage : String → Nat)
    (hkeys : keys ≠ []) :
    ∃ l1 l2,
      keys = l1 ++ (getNextApiKey keys usage).1 :: l2 ∧
      (∀ y ∈ l1, usage (getNextApiKey keys usage).1 < usage y) ∧
      (∀ y ∈ keys, usage (getNextApiKey keys usage).1 ≤ usage y) ∧
      (getNextApiKey keys usage).2 (getNextApiKey keys usage).1
        = usage (getNextApiKey keys usage).1 + 1 ∧
      (∀ k, k ≠ (getNextApiKey keys usage).1 → (getNextApiKey keys usage).2 k = usage k) := by
  obtain ⟨l1, l2, he, hlt, hmin⟩ := selectKey_spec keys usage hkeys
  refine ⟨l1, l2, he, hlt, hmin, ?_, ?_⟩
  · simp [getNextApiKey]
  · intro k hk
    have hk' : k ≠ selectKey keys usage := by simpa [getNextApiKey] using hk
    simp [getNextApiKey, hk']

/-- Witness for C6 at a concrete pool and usage state. -/
theorem c6_witness :
    ∃ l1 l2,
      keysTwo = l1 ++ (getNextApiKey keysTwo usageW).1 :: l2 ∧
      (∀ y ∈ l1, usageW (getNextApiKey keysTwo usageW).1 < usageW y) ∧
      (∀ y ∈ keysTwo, usageW (getNextApiKey keysTwo usageW).1 ≤ usageW y) ∧
      (getNextApiKey keysTwo usageW).2 (getNextApiKey keysTwo usageW).1
        = usageW (getNextApiKey keysTwo usageW).1 + 1 ∧
      (∀ k, k ≠ (getNextApiKey keysTwo usageW).1 → (getNextApiKey keysTwo usageW).2 k = usageW k) :=
  c6_acquire_least_used keysTwo usageW (by decide)

/-- C7: starting from all-zero counters, after any number of acquisitions no
credential's usage count exceeds any other's by more than 1, and the next
acquisition picks a credential whose count is minimal among the pool at that
point (never a more-used credential while a less-used one exists). -/
theorem c7_balance_invariant (keys : List String) (hkeys : keys ≠ []) (n : Nat) :
    (∀ a ∈ keys, ∀ b ∈ keys, usageAfter keys n a ≤ usageAfter keys n b + 1) ∧
    (∀ y ∈ keys,
      usageAfter keys n (selectKey keys (usageAfter keys n)) ≤ usageAfter keys n y) := by
  have hmin : ∀ m, ∀ y ∈ keys,
      usageAfter keys m (selectKey keys (usageAfter keys m)) ≤ usageAfter keys m y := by
    intro m y hy
    obtain ⟨l1, l2, he, hlt, hm⟩ := selectKey_spec keys (usageAfter keys m) hkeys
    exact hm y hy
  refine ⟨?_, hmin n⟩
  induction n with
  | zero => intro a _ b _; simp [usageAfter]
  | succ n ih =>
    intro a ha b hb
    have hm := selectKey_mem keys (usageAfter keys n) hkeys
    have hminb := hmin n b hb
    have hia := ih a ha (selectKey keys (usageAfter keys n)) hm
    have hib := ih a ha b hb
    have hupd : ∀ x, usageAfter keys (n + 1) x =
        if x = selectKey keys (usageAfter keys n) then
          usageAfter keys n (selectKey keys (usageAfter keys n)) + 1
        else usageAfter keys n x := by
      intro x
      simp [usageAfter, getNextApiKey]
    rw [hupd a, hupd b]
    by_cases hax : a = selectKey keys (usageAfter keys n) <;>
      by_cases hbx : b = selectKey keys (usageAfter keys n) <;>
      simp only [hax, hbx, if_true, if_false, ite_true, ite_false, if_neg, if_pos] <;>
      simp [hax, hbx] <;> omega

/-- Witness for C7 at a concrete pool, sequence length and pair of keys. -/
theorem c7_witness :
    usageAfter keysTwo 3 "key1" ≤ usageAfter keysTwo 3 "key2" + 1 :=
  (c7_balance_invariant keysTwo (by decide) 3).1 "key1" (by decide) "key2" (by decide)

theorem analyzeLoop_first_error_not_rl {α : Type} (keys : List String)
    (call : Nat → String → Except CallError α) (msg : String) (e : CallError)
    (h0 : ∀ k, call 0 k = .error e) (hrl : isRateLimitError e = false) :
    ∀ rem usage, 1 ≤ rem →
      (analyzeLoop keys call msg rem 0 usage).result = .error (.thrown e) ∧
      (analyzeLoop keys call msg rem 0 usage).attempts = 1 ∧
      (analyzeLoop keys call msg rem 0 usage).usage = (getNextApiKey keys usage).2 := by
  intro rem usage h
  cases rem with
  | zero => exact absurd h (by omega)
  | succ r =>
    simp only [analyzeLoop, h0]
    rw [if_neg (by simp [hrl])]
    exact ⟨rfl, rfl, rfl⟩

theorem analyzeLoop_always_rl {α : Type} (keys : List String)
    (call : Nat → String → Except CallError α) (msg : String) (err : Nat → CallError)
    (hcall : ∀ i k, call i k = .error (err i))
    (hrl : ∀ i, isRateLimitError (err i) = true) :
    ∀ rem rc usage, 1 ≤ rem →
      (analyzeLoop keys call msg rem rc usage).attempts = rem ∧
      (analyzeLoop keys call msg rem rc usage).result
        = .error (.thrown (err (rc + rem - 1))) := by
  intro rem
  induction rem with
  | zero => intro rc usage h; exact absurd h (by omega)
  | succ r ih =>
    intro rc usage h
    simp only [analyzeLoop, hcall]
    cases r with
    | zero =>
      rw [if_neg (by simp)]
      exact ⟨rfl, by simp⟩
    | succ r' =>
      rw [if_pos ⟨hrl rc, by omega⟩]
      obtain ⟨h1, h2⟩ := ih (rc + 1) (getNextApiKey keys usage).2 (by omega)
      refine ⟨by simpa using h1, ?_⟩
      rw [show rc + (r' + 1 + 1) - 1 = rc + 1 + (r' + 1) - 1 by omega]
      simpa using h2

theorem performLoop_always_error {α : Type} (keys : List String)
    (call : Nat → String → Except CallError α) (pageNumber maxRetries : Nat)
    (err : Nat → CallError)
    (hcall : ∀ i k, call i k = .error (err i)) :
    ∀ rem rc usage, 1 ≤ rem →
      (performLoop keys call pageNumber maxRetries rem rc usage).attempts = rem ∧
      (performLoop keys call pageNumber maxRetries rem rc usage).result
        = .error (.exhausted ("All " ++ toString maxRetries ++
            " API keys exhausted for page " ++ toString pageNumber ++ ": " ++
            (err (rc + rem - 1)).message)) := by
  intro rem
  induction rem with
  | zero => intro rc usage h; exact absurd h (by omega)
  | succ r ih =>
    intro rc usage h
    simp only [performLoop, hcall]
    cases r with
    | zero =>
      rw [if_neg (by simp), if_pos rfl]
      exact ⟨rfl, by simp⟩
    | succ r' =>
      obtain ⟨h1, h2⟩ := ih (rc + 1) (getNextApiKey keys usage).2 (by omega)
      have harith : rc + (r' + 1 + 1) - 1 = rc + 1 + (r' + 1) - 1 := by omega
      by_cases hb : isRateLimitError (err rc) = true
      · rw [if_pos ⟨hb, by omega⟩]
        refine ⟨by simpa using h1, ?_⟩
        rw [harith]
        simpa using h2
      · rw [if_neg (by simp [hb]), if_neg (by omega)]
        refine ⟨by simpa using h1, ?_⟩
        rw [harith]
        simpa using h2

/-- C1 counterexample: in `performExtraction`, a first-attempt error whose
message contains neither `429` nor `quota` does not propagate — the loop
acquires another credential, retries, and here returns the second attempt's
success after 2 attempts, contradicting the claim that such an error
propagates immediately after the first failing attempt. -/
theorem c1_counterexample :
    (performExtractionRun keysTwo callBoomThenOk 1 usageZero).result = .ok 42 ∧
    (performExtractionRun keysTwo callBoomThenOk 1 usageZero).attempts = 2 ∧
    isRateLimitError { message := "boom" } = false := by
  refine ⟨?_, ?_, ?_⟩ <;> decide

/-- C1 amended: for a call that fails with a non-rate-limit error,
`analyzePageStructure` and `extractQuestionsWithContext` propagate the error
immediately after the first failing attempt, with exactly one credential
acquisition; `performExtraction` instead retries any error with fresh
credentials until the pool size is exhausted and then raises its
`All ... API keys exhausted` failure. -/
theorem c1_amended {α : Type} (keys : List String) (usage : String → Nat) (page : Nat)
    (call : Nat → String → Except CallError α) (err : Nat → CallError)
    (hkeys : keys ≠ [])
    (hcall : ∀ i k, call i k = .error (err i))
    (hrl : ∀ i, isRateLimitError (err i) = false) :
    ((analyzePageStructureRun keys call usage).result = .error (.thrown (err 0)) ∧
     (analyzePageStructureRun keys call usage).attempts = 1 ∧
     (analyzePageStructureRun keys call usage).usage = (getNextApiKey keys usage).2) ∧
    ((extractQuestionsWithContextRun keys call usage).result = .error (.thrown (err 0)) ∧
     (extractQuestionsWithContextRun keys call usage).attempts = 1 ∧
     (extractQuestionsWithContextRun keys call usage).usage = (getNextApiKey keys usage).2) ∧
    ((performExtractionRun keys call page usage).result = .error (.exhausted
        ("All " ++ toString keys.length ++ " API keys exhausted for page " ++
         toString page ++ ": " ++ (err (keys.length - 1)).message)) ∧
     (performExtractionRun keys call page usage).attempts = keys.length) := by
  have hlen : 1 ≤ keys.length := List.length_pos.mpr hkeys
  have ha := analyzeLoop_first_error_not_rl keys call
    "All API keys exhausted for page structure analysis" (err 0)
    (fun k => hcall 0 k) (hrl 0) keys.length usage hlen
  have hx := analyzeLoop_first_error_not_rl keys call
    "All API keys exhausted for question extraction" (err 0)
    (fun k => hcall 0 k) (hrl 0) keys.length usage hlen
  have hp := performLoop_always_error keys call page keys.length err hcall
    keys.length 0 usage hlen
  refine ⟨⟨ha.1, ha.2.1, ha.2.2⟩, ⟨hx.1, hx.2.1, hx.2.2⟩, ?_, hp.1⟩
  have := hp.2
  simpa using this

/-- Witness for C1 amended at a concrete pool and oracle. -/
theorem c1_amended_witness :
    ((analyzePageStructureRun keysTwo callBoomAlways usageZero).result
        = .error (.thrown (mkErrBoom 0)) ∧
     (analyzePageStructureRun keysTwo callBoomAlways usageZero).attempts = 1 ∧
     (analyzePageStructureRun keysTwo callBoomAlways usageZero).usage
        = (getNextApiKey keysTwo usageZero).2) ∧
    ((extractQuestionsWithContextRun keysTwo callBoomAlways usageZero).result
        = .error (.thrown (mkErrBoom 0)) ∧
     (extractQuestionsWithContextRun keysTwo callBoomAlways usageZero).attempts = 1 ∧
     (extractQuestionsWithContextRun keysTwo callBoomAlways usageZero).usage
        = (getNextApiKey keysTwo usageZero).2) ∧
    ((performExtractionRun keysTwo callBoomAlways 1 usageZero).result = .error (.exhausted
        ("All " ++ toString keysTwo.length ++ " API keys exhausted for page " ++
         toString 1 ++ ": " ++ (mkErrBoom (keysTwo.length - 1)).message)) ∧
     (performExtractionRun keysTwo callBoomAlways 1 usageZero).attempts = keysTwo.length) :=
  c1_amended keysTwo usageZero 1 callBoomAlways mkErrBoom (by decide)
    (fun _ _ => rfl)
    (fun _ => (by decide : isRateLimitError { message := "boom" } = false))

/-- C2 counterexample: with a pool of 2 credentials and a call that is
rate-limited on every attempt, `analyzePageStructure` makes 2 attempts but
then rethrows the underlying rate-limit error itself (`throw error`), not
the distinct `All API keys exhausted ...` failure — its distinct message is
unreachable from inside the loop. -/
theorem c2_counterexample :
    (analyzePageStructureRun keysTwo callRateLimited usageZero).result
      = .error (.thrown { message := "429" }) ∧
    (analyzePageStructureRun keysTwo callRateLimited usageZero).result
      ≠ .error (.exhausted "All API keys exhausted for page structure analysis") ∧
    (analyzePageStructureRun keysTwo callRateLimited usageZero).attempts = 2 := by
  refine ⟨?_, ?_, ?_⟩ <;> decide

/-- C2 amended: on a request that is rate-limited on every attempt, all three
executors make exactly M attempts (M = pool size) and never fewer;
`performExtraction` then raises the distinct `All ... API keys exhausted`
failure, distinguishable from the underlying rate-limit error, while
`analyzePageStructure` and `extractQuestionsWithContext` rethrow the M-th
attempt's underlying rate-limit error itself. -/
theorem c2_amended {α : Type} (keys : List String) (usage : String → Nat) (page : Nat)
    (call : Nat → String → Except CallError α) (err : Nat → CallError)
    (hkeys : keys ≠ [])
    (hcall : ∀ i k, call i k = .error (err i))
    (hrl : ∀ i, isRateLimitError (err i) = true) :
    ((analyzePageStructureRun keys call usage).attempts = keys.length ∧
     (analyzePageStructureRun keys call usage).result
        = .error (.thrown (err (keys.length - 1)))) ∧
    ((extractQuestionsWithContextRun keys call usage).attempts = keys.length ∧
     (extractQuestionsWithContextRun keys call usage).result
        = .error (.thrown (err (keys.length - 1)))) ∧
    ((performExtractionRun keys call page usage).attempts = keys.length ∧
     (performExtractionRun keys call page usage).result = .error (.exhausted
        ("All " ++ toString keys.length ++ " API keys exhausted for page " ++
         toString page ++ ": " ++ (err (keys.length - 1)).message)) ∧
     (∀ e : CallError,
        RunError.exhausted ("All " ++ toString keys.length ++
          " API keys exhausted for page " ++ toString page ++ ": " ++
          (err (keys.length - 1)).message) ≠ RunError.thrown e)) := by
  have hlen : 1 ≤ keys.length := List.length_pos.mpr hkeys
  have ha := analyzeLoop_always_rl keys call
    "All API keys exhausted for page structure analysis" err hcall hrl
    keys.length 0 usage hlen
  have hx := analyzeLoop_always_rl keys call
    "All API keys exhausted for question extraction" err hcall hrl
    keys.length 0 usage hlen
  have hp := performLoop_always_error keys call page keys.length err hcall
    keys.length 0 usage hlen
  refine ⟨⟨ha.1, by simpa using ha.2⟩, ⟨hx.1, by simpa using hx.2⟩,
    hp.1, by simpa using hp.2, ?_⟩
  intro e h
  exact RunError.noConfusion h

/-- Witness for C2 amended at a concrete pool and oracle. -/
theorem c2_amended_witness :
    ((analyzePageStructureRun keysTwo callRateLimited usageZero).attempts = keysTwo.length ∧
     (analyzePageStructureRun keysTwo callRateLimited usageZero).result
        = .error (.thrown (mkErr429 (keysTwo.length - 1)))) ∧
    ((extractQuestionsWithContextRun keysTwo callRateLimited usageZero).attempts
        = keysTwo.length ∧
     (extractQuestionsWithContextRun keysTwo callRateLimited usageZero).result
        = .error (.thrown (mkErr429 (keysTwo.length - 1)))) ∧
    ((performExtractionRun keysTwo callRateLimited 1 usageZero).attempts = keysTwo.length ∧
     (performExtractionRun keysTwo callRateLimited 1 usageZero).result = .error (.exhausted
        ("All " ++ toString keysTwo.length ++ " API keys exhausted for page " ++
         toString 1 ++ ": " ++ (mkErr429 (keysTwo.length - 1)).message)) ∧
     (∀ e : CallError,
        RunError.exhausted ("All " ++ toString keysTwo.length ++
          " API keys exhausted for page " ++ toString 1 ++ ": " ++
          (mkErr429 (keysTwo.length - 1)).message) ≠ RunError.thrown e)) :=
  c2_amended keysTwo usageZero 1 callRateLimited mkErr429 (by decide)
    (fun _ _ => rfl)
    (fun _ => (by decide : isRateLimitError { message := "429" } = true))

theorem secondPassLoop_acc_indep
    (f : Nat → List ExtractedQuestion → Except CallError (List ExtractedQuestion))
    (hf : ∀ p a a', f p a = f p a') :
    ∀ (ps : List Nat) (acc : List ExtractedQuestion),
      secondPassLoop f ps acc = acc ++ pageResults (fun p => f p []) ps := by
  intro ps
  induction ps with
  | nil => intro acc; simp [secondPassLoop, pageResults]
  | cons p ps ih =>
    intro acc
    simp only [secondPassLoop, pageResults]
    rw [hf p acc []]
    cases hfp : f p [] with
    | ok qs => simp [hfp, ih, List.append_assoc]
    | error e => simp [hfp, ih]

theorem scanPagesLoop_ctx_indep
    (e : Nat → String → Except CallError (List ExtractedQuestion))
    (he : ∀ p c c', e p c = e p c') :
    ∀ (ps : List Nat) (c c0 : String),
      scanPagesLoop e ps c = pageResults (fun p => e p c0) ps := by
  intro ps
  induction ps with
  | nil => intro c c0; rfl
  | cons p ps ih =>
    intro c c0
    simp only [scanPagesLoop, pageResults]
    rw [he p c c0]
    cases hfp : e p c0 with
    | ok qs =>
      by_cases hq : qs.length > 0
      · simp [hfp, hq, ih (joinStatements qs) c0]
      · have hnil : qs = [] := List.eq_nil_of_length_eq_zero (by omega)
        simp [hfp, hq, hnil, ih c c0]
    | error er => simp [hfp, ih c c0]

/-- C9: when the per-page oracles do not depend on the rolling accumulator /
context, both orchestrators (the two-pass `enhancedQuestionExtraction` and
the page loop of `scanAndExtractQuestions`) always run to completion and
return exactly the concatenation, in page order, of the successful pages'
questions — a page whose structural or extraction call errors contributes
zero questions and the next page is still processed. -/
theorem c9_page_isolation
    (analyze : Nat → Except CallError PageAnalysis)
    (extract : (Nat → Option String) → Nat →
      List ExtractedQuestion → Except CallError (List ExtractedQuestion))
    (extract2 : Nat → String → Except CallError (List ExtractedQuestion))
    (pages : List Nat) (ctx : String)
    (hacc : ∀ sd p a a', extract sd p a = extract sd p a')
    (hctx : ∀ p c c', extract2 p c = extract2 p c') :
    enhancedQuestionExtraction analyze extract pages =
      pageResults
        (fun p => extract (firstPassLoop analyze pages (fun _ => none)) p []) pages ∧
    scanPagesLoop extract2 pages ctx = pageResults (fun p => extract2 p ctx) pages := by
  constructor
  · unfold enhancedQuestionExtraction
    exact (secondPassLoop_acc_indep _ (hacc _) pages []).trans (by simp)
  · exact scanPagesLoop_ctx_indep extract2 hctx pages ctx ctx

/-- Witness for C9: on a 3-page document whose oracle fails deterministically
on page 2, both orchestrators return the questions of pages 1 and 3. -/
theorem c9_witness :
    enhancedQuestionExtraction analyzeFailAll extractFailOn2 [1, 2, 3]
      = [mkPageQ 1, mkPageQ 3] ∧
    scanPagesLoop extractFailOn2Ctx [1, 2, 3] "" = [mkPageQ 1, mkPageQ 3] := by
  have h := c9_page_isolation analyzeFailAll extractFailOn2 extractFailOn2Ctx [1, 2, 3] ""
    (fun _ _ _ _ => rfl) (fun _ _ _ => rfl)
  refine ⟨h.1.trans ?_, h.2.trans ?_⟩ <;> decide

theorem dropWhile_append_all {α : Type} (p : α → Bool) (l1 l2 : List α)
    (h : ∀ c ∈ l1, p c = true) :
    (l1 ++ l2).dropWhile p = l2.dropWhile p := by
  induction l1 with
  | nil => rfl
  | cons c t ih =>
    simp only [List.cons_append, List.dropWhile_cons, h c (by simp)]
    exact ih (fun x hx => h x (by simp [hx]))

theorem mem_stampQuestions_page {page : Nat} {qs : List ExtractedQuestion}
    {q : ExtractedQuestion} (h : q ∈ stampQuestions page qs) :
    q.page_number = some (page : Int) := by
  simp only [stampQuestions, List.mem_map] at h
  obtain ⟨q', -, rfl⟩ := h
  rfl

/-- C8: the decoder locates a JSON array candidate by trying the greedy
bracketed span first (the span runs from the first `[` to the last `]`, for
any interior), falling back to the interior of a ```` ```json ```` fenced
block only when no bracketed span exists; when neither matches, both decode
paths return the empty list and no error. -/
theorem c8_decoder_strategy :
    (∀ t : String, (bracketSpan t).isSome → extractJsonCandidate t = bracketSpan t) ∧
    (∀ t : String, bracketSpan t = none → extractJsonCandidate t = fenceInterior t) ∧
    (∀ pre mid post : List Char, (∀ c ∈ pre, c ≠ '[') → (∀ c ∈ post, c ≠ ']') →
      bracketSpanL (pre ++ '[' :: (mid ++ ']' :: post)) = some ('[' :: (mid ++ [']']))) ∧
    (∀ (parse : String → Option (List ExtractedQuestion)) (page : Nat) (t : String),
      bracketSpan t = none → fenceInterior t = none →
      performExtractionDecode parse t page = [] ∧
      extractWithContextDecode parse t page = []) := by
  refine ⟨?_, ?_, ?_, ?_⟩
  · intro t h
    obtain ⟨m, hm⟩ := Option.isSome_iff_exists.mp h
    simp [extractJsonCandidate, hm]
  · intro t h
    simp [extractJsonCandidate, h]
  · intro pre mid post hpre hpost
    unfold bracketSpanL
    rw [dropWhile_append_all _ pre _ (fun c hc => by simp [hpre c hc])]
    rw [List.dropWhile_cons]
    simp only [bne_self_eq_false, Bool.false_eq_true, if_false, ite_false]
    have hrev : (mid ++ ']' :: post).reverse = post.reverse ++ ']' :: mid.reverse := by
      simp
    rw [hrev, dropWhile_append_all _ post.reverse _
      (fun c hc => by simp [hpost c (List.mem_reverse.mp hc)])]
    rw [List.dropWhile_cons]
    simp
  · intro parse page t h1 h2
    have hc : extractJsonCandidate t = none := by
      simp [extractJsonCandidate, h1, h2]
    exact ⟨by simp [performExtractionDecode, hc], by simp [extractWithContextDecode, hc]⟩

/-- Witness for C8 on text with neither a bracketed span nor a fenced block. -/
theorem c8_witness :
    performExtractionDecode (fun _ => none) "no questions here" 1 = [] ∧
    extractWithContextDecode (fun _ => none) "no questions here" 1 = [] :=
  c8_decoder_strategy.2.2.2 (fun _ => none) 1 "no questions here" (by decide) (by decide)

/-- C3 counterexample: on the candidate `[` newline `]`, whose strict parse
fails but whose repaired form parses, `performExtraction` returns the empty
list while `extractQuestionsWithContext` returns the repaired records — the
single-pass variant applies no repair pass, contradicting the claim that one
repair pass is applied in both pipeline variants. -/
theorem c3_counterexample :
    performExtractionDecode parseRepairCE "[\n]" 3 = [] ∧
    extractWithContextDecode parseRepairCE "[\n]" 3 = stampQuestions 3 [qRepairCE] ∧
    stampQuestions 3 [qRepairCE] ≠ [] := by
  refine ⟨?_, ?_, ?_⟩ <;> decide

/-- C3 amended: on a located candidate whose strict parse fails,
`extractQuestionsWithContext` applies exactly one repair pass (escape lone
backslashes, collapse over-escaped runs, escape literal newline/tab/CR)
followed by a re-parse, returning the empty list if that also fails, while
`performExtraction` returns the empty list immediately with no repair pass;
in both variants the decode failure is never surfaced as a thrown error
(both decodes are total). -/
theorem c3_amended (parse : String → Option (List ExtractedQuestion)) (text : String)
    (page : Nat) (candidate : String)
    (hc : extractJsonCandidate text = some candidate)
    (hfail : parse candidate = none) :
    extractWithContextDecode parse text page =
      (match parse (fixJson candidate) with
       | some qs => stampQuestions page qs
       | none => []) ∧
    performExtractionDecode parse text page = [] := by
  simp only [extractWithContextDecode, performExtractionDecode, hc, hfail]
  exact ⟨trivial, trivial⟩

/-- Witness for C3 amended at a concrete candidate and parse oracle. -/
theorem c3_amended_witness :
    extractWithContextDecode parseRepairCE "[\n]" 3 =
      (match parseRepairCE (fixJson "[\n]") with
       | some qs => stampQuestions 3 qs
       | none => []) ∧
    performExtractionDecode parseRepairCE "[\n]" 3 = [] :=
  c3_amended parseRepairCE "[\n]" 3 "[\n]" (by decide) (by decide)

/-- C5 counterexample: a successfully decoded record whose confidence score
is present and equal to 0 does not keep its score — `q.confidence_score ||
1.0` treats 0 as falsy and replaces it by 1.0, contradicting the claim that
a present score is passed through unchanged. -/
theorem c5_counterexample :
    qZeroConf.confidence_score = some 0 ∧
    performExtractionDecode (fun _ => some [qZeroConf]) "[]" 5
      = [{ qZeroConf with page_number := some 5, confidence_score := some 1 }] ∧
    (some (1 : Rat) ≠ some (0 : Rat)) := by
  refine ⟨rfl, by decide, by decide⟩

/-- C5 amended: every successfully parsed record is stamped with the page
under analysis (overwriting any model-reported page number), and its
confidence score becomes 1.0 when the decoded score is absent or equal to 0
(JS falsy), and is kept unchanged when present and non-zero. -/
theorem c5_amended (parse : String → Option (List ExtractedQuestion)) (text : String)
    (page : Nat) :
    (∀ q ∈ performExtractionDecode parse text page, q.page_number = some (page : Int)) ∧
    (∀ q ∈ extractWithContextDecode parse text page, q.page_number = some (page : Int)) ∧
    (∀ q : ExtractedQuestion, q.confidence_score = none →
      (stampQuestion page q).confidence_score = some 1) ∧
    (∀ q : ExtractedQuestion, q.confidence_score = some 0 →
      (stampQuestion page q).confidence_score = some 1) ∧
    (∀ (q : ExtractedQuestion) (c : Rat), q.confidence_score = some c → c ≠ 0 →
      (stampQuestion page q).confidence_score = some c) := by
  refine ⟨?_, ?_, ?_, ?_, ?_⟩
  · intro q hq
    unfold performExtractionDecode at hq
    split at hq
    · simp at hq
    · split at hq
      · exact mem_stampQuestions_page hq
      · simp at hq
  · intro q hq
    unfold extractWithContextDecode at hq
    split at hq
    · simp at hq
    · split at hq
      · exact mem_stampQuestions_page hq
      · split at hq
        · exact mem_stampQuestions_page hq
        · simp at hq
  · intro q h
    simp [stampQuestion, jsNumOr, h]
  · intro q h
    simp [stampQuestion, jsNumOr, h]
  · intro q c h hc
    simp [stampQuestion, jsNumOr, h, hc]

/-- Witness for C5 amended at concrete records. -/
theorem c5_amended_witness :
    (stampQuestion 5 qRepairCE).confidence_score = some 1 ∧
    (stampQuestion 5 qZeroConf).confidence_score = some 1 :=
  ⟨(c5_amended (fun _ => none) "" 5).2.2.1 qRepairCE rfl,
   (c5_amended (fun _ => none) "" 5).2.2.2.1 qZeroConf rfl⟩


theorem string_length_pos_iff (t : String) : 0 < t.length ↔ t ≠ "" := by
  obtain ⟨l⟩ := t
  cases l with
  | nil => simp [String.length]
  | cons c cs =>
    constructor
    · intro _ h
      exact List.noConfusion (congrArg String.data h)
    · intro _
      simp [String.length]

/-- C10: the records submitted to storage by `savePdfQuestions` are exactly
those whose statement has non-empty trimmed text, whose type is one of
MCQ/MSQ/NAT/Subjective, whose course reference is set, and whose parsed year
lies strictly between 2000 and 2030; all other records are filtered out, and
when no record survives the filter nothing is submitted and the save fails
with `No valid questions to save`. -/
theorem c10_save_batch_validation (courseId year : String) (qs : List ExtractedQuestion) :
    (savePdfQuestions courseId qs year
        = .ok ((qs.map (toInsert courseId year)).filter isValidInsert) ∨
     savePdfQuestions courseId qs year = .error "No valid questions to save") ∧
    (savePdfQuestions courseId qs year = .error "No valid questions to save" ↔
      (qs.map (toInsert courseId year)).filter isValidInsert = []) ∧
    (∀ r : QuestionInsert, isValidInsert r = true ↔
      (jsTrim r.question_statement ≠ "" ∧
       (r.question_type = "MCQ" ∨ r.question_type = "MSQ" ∨
        r.question_type = "NAT" ∨ r.question_type = "Subjective") ∧
       r.course_id ≠ "" ∧
       ∃ y : Int, r.year = some y ∧ 2000 < y ∧ y < 2030)) := by
  refine ⟨?_, ?_, ?_⟩
  · unfold savePdfQuestions
    by_cases h : ((qs.map (toInsert courseId year)).filter isValidInsert).isEmpty
    · right; simp [h]
    · left; simp [h]
  · unfold savePdfQuestions
    by_cases h : ((qs.map (toInsert courseId year)).filter isValidInsert).isEmpty
    · simp only [h, if_true, ite_true, true_iff]
      exact List.isEmpty_iff.mp h
    · simp only [h, if_false, ite_false]
      constructor
      · intro he
        exact Except.noConfusion he
      · intro he
        exact absurd (List.isEmpty_iff.mpr he) h
  · intro r
    unfold isValidInsert
    cases hy : r.year with
    | none =>
      constructor
      · intro h
        simp at h
      · rintro ⟨-, -, -, y, hy2, -⟩
        exact Option.noConfusion hy2
    | some y =>
      simp only [Bool.and_eq_true, bne_iff_ne, ne_eq, decide_eq_true_eq]
      constructor
      · rintro ⟨⟨⟨⟨⟨hs, hlen⟩, -⟩, htype⟩, hcourse⟩, hyy⟩
        refine ⟨(string_length_pos_iff _).mp hlen, ?_, hcourse, y, rfl,
          hyy.1.2, hyy.2⟩
        have htype' : r.question_type ∈ ["MCQ", "MSQ", "NAT", "Subjective"] := by
          simpa [List.contains] using htype
        simpa using htype'
      · rintro ⟨htrim, htype, hcourse, y', hy', h1, h2⟩
        rw [Option.some.injEq] at hy'
        subst hy'
        have hs : r.question_statement ≠ "" := by
          intro he
          apply htrim
          rw [he]
          rfl
        refine ⟨⟨⟨⟨⟨hs, (string_length_pos_iff _).mpr htrim⟩, ?_⟩, ?_⟩, hcourse⟩,
          ⟨by omega, h1⟩, h2⟩
        · rcases htype with h | h | h | h <;> simp [h]
        · show List.contains _ _ = true
          simp only [List.contains]
          rcases htype with h | h | h | h <;> simp [h]

/-- Witness for C10: a batch whose only record has an empty statement is
rejected with the `nothing to save` failure. -/
theorem c10_witness :
    savePdfQuestions "course-1" [qEmptyStatement] "2019"
      = .error "No valid questions to save" :=
  ((c10_save_batch_validation "course-1" "2019" [qEmptyStatement]).2.1).mpr (by decide)

theorem decDigitChar_props : ∀ d, d < 10 →
    charDigitVal (decDigitChar d) = some d ∧
    decDigitChar d ≠ '-' ∧ decDigitChar d ≠ '+' ∧
    isJsSpace (decDigitChar d) = false ∧ isDecDigit (decDigitChar d) = true := by
  decide

theorem natDecimalCharsAux_spec : ∀ (fuel n : Nat), n < fuel →
    natDecimalCharsAux fuel n ≠ [] ∧
    (∀ c ∈ natDecimalCharsAux fuel n, ∃ d, d < 10 ∧ c = decDigitChar d) ∧
    (natDecimalCharsAux fuel n).foldl (fun a c => a * 10 + (charDigitVal c).getD 0) 0 = n := by
  intro fuel
  induction fuel with
  | zero => intro n h; exact absurd h (by omega)
  | succ f ih =>
    intro n h
    by_cases h10 : n < 10
    · simp only [natDecimalCharsAux, h10, if_pos]
      refine ⟨by simp, ?_, ?_⟩
      · intro c hc
        rw [List.mem_singleton] at hc
        exact ⟨n, h10, hc⟩
      · simp [(decDigitChar_props n h10).1]
    · have hdiv : n / 10 < f := by
        have h1 : 0 < n := by omega
        have := Nat.div_lt_self h1 (by omega : 1 < 10)
        omega
      obtain ⟨hne, hdig, hval⟩ := ih (n / 10) hdiv
      simp only [natDecimalCharsAux, h10, if_neg, ite_false]
      refine ⟨by simp, ?_, ?_⟩
      · intro c hc
        rw [List.mem_append] at hc
        rcases hc with hc | hc
        · exact hdig c hc
        · rw [List.mem_singleton] at hc
          exact ⟨n % 10, by omega, hc⟩
      · rw [List.foldl_append, hval]
        simp only [List.foldl_cons, List.foldl_nil,
          (decDigitChar_props (n % 10) (by omega)).1]
        have := Nat.div_add_mod n 10
        simp only [Option.getD_some]
        omega

theorem natDecimalChars_spec (n : Nat) :
    natDecimalChars n ≠ [] ∧
    (∀ c ∈ natDecimalChars n, ∃ d, d < 10 ∧ c = decDigitChar d) ∧
    (natDecimalChars n).foldl (fun a c => a * 10 + (charDigitVal c).getD 0) 0 = n :=
  natDecimalCharsAux_spec (n + 1) n (by omega)

theorem parseLeadingNat_natDecimalChars (n : Nat) :
    parseLeadingNat (natDecimalChars n) = some n := by
  obtain ⟨hne, hdig, hval⟩ := natDecimalChars_spec n
  unfold parseLeadingNat
  have htake : (natDecimalChars n).takeWhile isDecDigit = natDecimalChars n := by
    rw [List.takeWhile_eq_self_iff]
    intro x hx
    obtain ⟨d, hd, rfl⟩ := hdig x hx
    exact (decDigitChar_props d hd).2.2.2.2
  rw [htake]
  rw [if_neg (by simpa [List.isEmpty_iff] using hne)]
  rw [hval]

theorem jsParseIntL_natDecimalChars (n : Nat) :
    jsParseIntL (natDecimalChars n) = some (n : Int) := by
  obtain ⟨hne, hdig, -⟩ := natDecimalChars_spec n
  cases hl : natDecimalChars n with
  | nil => exact absurd hl hne
  | cons c cs =>
    obtain ⟨d, hd, hc⟩ := hdig c (by rw [hl]; simp)
    have hspace : isJsSpace c = false := by
      rw [hc]; exact (decDigitChar_props d hd).2.2.2.1
    have hminus : c ≠ '-' := by rw [hc]; exact (decDigitChar_props d hd).2.1
    have hplus : c ≠ '+' := by rw [hc]; exact (decDigitChar_props d hd).2.2.1
    simp only [jsParseIntL, hl, List.dropWhile_cons, hspace, Bool.false_eq_true, if_false,
      ite_false]
    split
    · rename_i rest heq
      exact absurd ((List.cons.injEq _ _ _ _).mp heq).1 hminus
    · rename_i rest heq
      exact absurd ((List.cons.injEq _ _ _ _).mp heq).1 hplus
    · rw [← hl, parseLeadingNat_natDecimalChars]
      rfl

theorem jsParseIntL_intDecimalChars (i : Int) :
    jsParseIntL (intDecimalChars i) = some i := by
  unfold intDecimalChars
  by_cases h : i < 0
  · rw [if_pos h]
    have hsp : isJsSpace '-' = false := by decide
    simp only [jsParseIntL, List.dropWhile_cons, hsp, Bool.false_eq_true, if_false, ite_false]
    show (parseLeadingNat (natDecimalChars i.natAbs)).map (fun n => -(n : Int)) = some i
    rw [parseLeadingNat_natDecimalChars]
    show some (-(i.natAbs : Int)) = some i
    congr 1
    omega
  · rw [if_neg h]
    rw [jsParseIntL_natDecimalChars]
    congr 1
    omega

/-- C4: in the manual save-all path, questions are grouped under their page
number rendered as a string, which is then used in place of the PDF's year;
for any non-empty extracted set whose page numbers are all at most 2000,
every group's parsed year fails the strict `year > 2000` plausibility check,
so the first group already throws and the whole operation fails with
`No valid questions to save`, saving nothing. -/
theorem c4_saveAll_page_as_year (courseId : String) (qs : List ExtractedQuestion)
    (hcourse : courseId ≠ "") (hqs : qs ≠ [])
    (hpage : ∀ q ∈ qs, ∀ p : Int, q.page_number = some p → p ≤ 2000) :
    saveAllToDatabase courseId qs = .error "No valid questions to save" := by
  unfold saveAllToDatabase
  rw [if_neg (by simp [hcourse, hqs])]
  cases hq : qs with
  | nil => exact absurd hq hqs
  | cons q0 rest =>
    have hyear : jsParseInt (yearKey q0) = none ∨
        (∃ p : Int, jsParseInt (yearKey q0) = some p ∧ p ≤ 2000) := by
      cases hq0 : q0.page_number with
      | some p =>
        right
        refine ⟨p, ?_, hpage q0 (by rw [hq]; exact List.mem_cons_self q0 rest) p hq0⟩
        unfold yearKey
        rw [hq0]
        show jsParseIntL (intDecimalChars p) = some p
        exact jsParseIntL_intDecimalChars p
      | none =>
        left
        unfold yearKey
        rw [hq0]
        decide
    have hinv : ∀ q' : ExtractedQuestion,
        isValidInsert (toInsert courseId (yearKey q0) q') = false := by
      intro q'
      rcases hyear with h | ⟨p, h, hp⟩
      · simp [isValidInsert, toInsert, h]
      · simp [isValidInsert, toInsert, h, show ¬(2000 < p) by omega]
    have hsave : savePdfQuestions courseId
        ((q0 :: rest).filter (fun q => yearKey q == yearKey q0)) (yearKey q0)
        = .error "No valid questions to save" := by
      have hempty : ((((q0 :: rest).filter (fun q => yearKey q == yearKey q0)).map
          (toInsert courseId (yearKey q0))).filter isValidInsert) = [] := by
        rw [List.filter_eq_nil_iff]
        intro r hr
        simp only [List.mem_map] at hr
        obtain ⟨q', -, rfl⟩ := hr
        simp [hinv q']
      simp only [savePdfQuestions, hempty, List.isEmpty_nil, if_true, ite_true]
    show saveGroupsLoop courseId (q0 :: rest)
      (uniqueKeys ((q0 :: rest).map yearKey)) = .error "No valid questions to save"
    have hkeys : uniqueKeys ((q0 :: rest).map yearKey)
        = yearKey q0 :: uniqueKeysAux [yearKey q0] (rest.map yearKey) := by
      simp [uniqueKeys, uniqueKeysAux]
    rw [hkeys]
    simp only [saveGroupsLoop, hsave]

/-- Witness for C4 at a concrete course and a one-question set on page 3. -/
theorem c4_witness :
    saveAllToDatabase "course-1" [qPage3] = .error "No valid questions to save" :=
  c4_saveAll_page_as_year "course-1" [qPage3] (by decide) (by decide)
    (by intro q hq p hp
        rw [List.mem_singleton] at hq
        subst hq
        rw [show qPage3.page_number = some 3 from rfl, Option.some.injEq] at hp
        omega)
